import Mathlib

/-!
Verification of the in-memory file system `src/memFS.cpp`.

The program keeps a flat map from path strings to entries
(`std::unordered_map<std::string, FSEntry> memoryFileSystem`), a global
current directory string, and implements all hierarchy operations by
path-string prefix scans.  We embed the store as an association list with
unique keys, thread the global `currentDirectory` and the wall-clock date
(`getCurrentDateString`, an opaque day-resolution string) as explicit
parameters, and translate each operation from the C++ source.  Strings are
Lean `String`s; the character-level work (splitting on `/`, `find_last_of`,
substrings) is done on `String.data` with structural recursion so that every
definition evaluates by kernel reduction.
-/

namespace MemFS

/-- Mirrors `enum class EntryType` (memFS.cpp lines 19-22). -/
inductive EntryType where
  | FILE
  | DIRECTORY
deriving DecidableEq, Repr

/-- Mirrors `struct FSEntry` (memFS.cpp lines 27-33). -/
structure FSEntry where
  data : String
  sizeInBytes : Nat
  creationDate : String
  modificationDate : String
  type : EntryType
deriving DecidableEq, Repr

/-- The global `memoryFileSystem` map, embedded as an association list with
unique keys (the enumeration order of the `unordered_map` is unspecified;
the list order plays that role). -/
abbrev Store := List (String × FSEntry)

/-- `m.find(k)` on the map: the entry stored at key `k`, if any. -/
def mapFind (m : Store) (k : String) : Option FSEntry :=
  match m with
  | [] => none
  | kv :: t => if kv.1 == k then some kv.2 else mapFind t k

/-- `m[k] = v` on the map: replace the binding if the key is present,
otherwise add a new binding. -/
def mapAssign (m : Store) (k : String) (v : FSEntry) : Store :=
  match m with
  | [] => [(k, v)]
  | kv :: t => if kv.1 == k then (k, v) :: t else kv :: mapAssign t k v

/-- `m.erase(k)` on the map. -/
def mapErase (m : Store) (k : String) : Store :=
  m.filter (fun kv => !(kv.1 == k))

/-- `s.find(pre) == 0` in the C++ source: `s` starts with the string `pre`. -/
def startsWithStr (s pre : String) : Bool :=
  pre.data.isPrefixOf s.data

/-- `path.empty() || path[0] != '/'` is the "relative path" test of
`normalizePath`; this is its negation (`path` nonempty and starting
with `/`). -/
def headIsSlash (s : String) : Bool :=
  match s.data with
  | [] => false
  | c :: _ => c == '/'

/-- The `while (std::getline(pathStream, component, '/'))` tokenization of
`normalizePath`, as a split of a character list on one character.  (For a
string ending in the delimiter `getline` yields no final empty field while
this split yields one; `normalizePath` discards empty components, so the
two agree there, and for the `load` field-splitting the trailing empty
field is what the acceptance condition below accounts for.) -/
def splitOnChar (c : Char) : List Char → List (List Char)
  | [] => [[]]
  | x :: xs =>
    if x == c then [] :: splitOnChar c xs
    else
      match splitOnChar c xs with
      | [] => [[x]]
      | r :: rs => (x :: r) :: rs

/-- The body of the component loop of `normalizePath` (memFS.cpp lines
106-117): `.` is dropped, `..` pops the last retained component if any
(`pop_back` guarded by non-emptiness), empty components are dropped,
anything else is appended. -/
def processStep (acc : List (List Char)) (comp : List Char) : List (List Char) :=
  if comp == ['.'] then acc
  else if comp == ['.', '.'] then acc.dropLast
  else if comp == [] then acc
  else acc ++ [comp]

/-- The component loop of `normalizePath` (memFS.cpp lines 105-118). -/
def processComponents (comps : List (List Char)) : List (List Char) :=
  comps.foldl processStep []

/-- The final trim of `normalizePath` (memFS.cpp lines 126-129): remove
the trailing slash except for the bare root. -/
def trimTrailingSlash (p : List Char) : List Char :=
  if p.length > 1 && (p.getLast? == some '/') then p.dropLast else p

/-- The reconstruction loop of `normalizePath` (memFS.cpp lines 120-129):
start from `"/"`, append each `comp + "/"`, then drop the trailing slash
when the result is longer than `"/"`. -/
def renderPath (comps : List (List Char)) : List Char :=
  trimTrailingSlash (comps.foldl (fun acc comp => acc ++ comp ++ ['/']) ['/'])

/-- `normalizePath` (memFS.cpp lines 84-132).  The C++ reads the global
`currentDirectory`; here it is the explicit first argument.  In the
relative branch the inner guard `normalizedPath != "/" && path[0] != '/'`
reduces to `cwd != "/"` (the branch already knows `path[0] != '/'`,
with `path[0]` the null character for an empty `path`). -/
def normalizePath (cwd path : String) : String :=
  let base : String :=
    if headIsSlash path then path
    else if cwd != "/" then cwd ++ "/" ++ path else cwd ++ path
  ⟨renderPath (processComponents (splitOnChar '/' base.data))⟩

/-- Index of the last `'/'` in a character list (`find_last_of('/')`),
`none` for `npos`. -/
def lastSlashIdx : List Char → Option Nat
  | [] => none
  | c :: cs =>
    match lastSlashIdx cs with
    | some i => some (i + 1)
    | none => if c == '/' then some 0 else none

/-- `getDirectoryFromPath` (memFS.cpp lines 139-145): the substring before
the last `'/'`, or `"/"` when the path contains no `'/'` at all. -/
def getDirectoryFromPath (p : String) : String :=
  match lastSlashIdx p.data with
  | none => "/"
  | some i => ⟨p.data.take i⟩

/-- `directoryExists` (memFS.cpp lines 165-168). -/
def directoryExists (m : Store) (p : String) : Bool :=
  match mapFind m p with
  | some e => e.type == EntryType.DIRECTORY
  | none => false

/-- `fileExists` (memFS.cpp lines 175-178). -/
def fileExists (m : Store) (p : String) : Bool :=
  match mapFind m p with
  | some e => e.type == EntryType.FILE
  | none => false

/-- `ensureParentDirectoriesExist` (memFS.cpp lines 185-212), with an
explicit fuel for the recursion on `getDirectoryFromPath` (whenever the
C++ recurses, the argument is a strict prefix cut at the last `'/'`, so
`path.length + 1` fuel — supplied by the wrapper below — is enough and the
fuel-exhausted branch is never taken).  The C++ function returns a `bool`
that is constantly `true`; we return the updated store.  Note that when
`dirPath` exists as a FILE, `directoryExists` is false and line 208
overwrites it with a fresh directory — faithfully reproduced by
`mapAssign`. -/
def ensureParentDirectoriesExistAux (today : String) : Nat → Store → String → Store
  | 0, m, _ => m
  | fuel + 1, m, path =>
    let dirPath := getDirectoryFromPath path
    if dirPath == "/" then m
    else if directoryExists m dirPath then m
    else
      mapAssign (ensureParentDirectoriesExistAux today fuel m dirPath) dirPath
        ⟨"", 0, today, today, EntryType.DIRECTORY⟩

/-- `ensureParentDirectoriesExist` at its natural fuel. -/
def ensureParentDirectoriesExist (today : String) (m : Store) (path : String) : Store :=
  ensureParentDirectoriesExistAux today (path.length + 1) m path

/-- `updateFileContent` (memFS.cpp lines 220-232): in-place update of the
data, size and modification date of an existing file. -/
def updateFileContent (today : String) (m : Store) (path content : String) : Bool × Store :=
  match mapFind m path with
  | none => (false, m)
  | some e =>
    if e.type == EntryType.FILE then
      (true, mapAssign m path
        { e with data := content, sizeInBytes := content.utf8ByteSize,
                 modificationDate := today })
    else (false, m)

/-- `writeContentToFile` (memFS.cpp lines 240-271). -/
def writeContentToFile (today : String) (m : Store) (cwd path content : String) :
    Bool × Store :=
  let normalizedPath := normalizePath cwd path
  let m1 := ensureParentDirectoriesExist today m normalizedPath
  if fileExists m1 normalizedPath then
    updateFileContent today m1 normalizedPath content
  else
    (true, mapAssign m1 normalizedPath
      ⟨content, content.utf8ByteSize, today, today, EntryType.FILE⟩)

/-- `addNewEntryInternal` (memFS.cpp lines 435-464). -/
def addNewEntryInternal (today : String) (m : Store) (cwd path : String)
    (isDirectory : Bool) : Bool × Store :=
  let normalizedPath := normalizePath cwd path
  if (mapFind m normalizedPath).isSome then (false, m)
  else
    let m1 := ensureParentDirectoriesExist today m normalizedPath
    (true, mapAssign m1 normalizedPath
      ⟨"", 0, today, today, if isDirectory then EntryType.DIRECTORY else EntryType.FILE⟩)

/-- `parseCdCommand` (memFS.cpp lines 554-581), with the argument already
tokenized: returns whether the change succeeded and the new value of
`currentDirectory`. -/
def parseCdCommand (m : Store) (cwd arg : String) : Bool × String :=
  let targetDir := normalizePath cwd arg
  if targetDir == "/" then (true, "/")
  else if directoryExists m targetDir then (true, targetDir)
  else (false, cwd)

/-- The descendant test used by the prefix scans of `removeEntryInternal`,
`parseMoveCommand` and `parseCopyCommand`:
`entry.first != path && entry.first.find(prefix) == 0` with
`prefix = (path == "/") ? "/" : path + "/"`. -/
def isDescendantOf (n : String) (kv : String × FSEntry) : Bool :=
  kv.1 != n && startsWithStr kv.1 (if n == "/" then "/" else n ++ "/")

/-- `removeEntryInternal` (memFS.cpp lines 596-643). -/
def removeEntryInternal (m : Store) (cwd path : String) (recursive : Bool) :
    Bool × Store :=
  let normalizedPath := normalizePath cwd path
  match mapFind m normalizedPath with
  | none => (false, m)
  | some e =>
    if e.type == EntryType.DIRECTORY then
      let hasContents := m.any (isDescendantOf normalizedPath)
      if hasContents && !recursive then (false, m)
      else
        let m1 :=
          if recursive then m.filter (fun kv => !(isDescendantOf normalizedPath kv))
          else m
        (true, mapErase m1 normalizedPath)
    else (true, mapErase m normalizedPath)

/-- `parseMoveCommand` (memFS.cpp lines 760-832), with the two arguments
already tokenized.  For a directory source the code first creates the
destination through `addNewEntryInternal`, then collects the descendants,
inserts them at the remapped keys, collects every key matching the source
prefix, erases those, and finally erases the source key. -/
def parseMoveCommand (today : String) (m : Store) (cwd src dst : String) :
    Bool × Store :=
  let sourcePath := normalizePath cwd src
  let destPath := normalizePath cwd dst
  match mapFind m sourcePath with
  | none => (false, m)
  | some se =>
    if (mapFind m destPath).isSome then (false, m)
    else if se.type == EntryType.DIRECTORY then
      match addNewEntryInternal today m cwd destPath true with
      | (false, m1) => (false, m1)
      | (true, m1) =>
        let srcPre := if sourcePath == "/" then "/" else sourcePath ++ "/"
        let dstPre := if destPath == "/" then "/" else destPath ++ "/"
        let entriesToMove :=
          (m1.filter (isDescendantOf sourcePath)).map
            (fun kv => (dstPre ++ ⟨kv.1.data.drop srcPre.length⟩, kv.2))
        let m2 := entriesToMove.foldl (fun acc kv => mapAssign acc kv.1 kv.2) m1
        let pathsToRemove :=
          (m2.filter (fun kv => startsWithStr kv.1 srcPre)).map (fun kv => kv.1)
        let m3 := pathsToRemove.foldl mapErase m2
        (true, mapErase m3 sourcePath)
    else
      (true, mapErase (mapAssign m destPath se) sourcePath)

/-- `parseCopyCommand` (memFS.cpp lines 838-899), with the two arguments
already tokenized.  (The C++ for-loop inserts into `memoryFileSystem`
while iterating it, which is undefined behaviour for `unordered_map`; we
model the evident intent, collect-then-insert, as the move code does.) -/
def parseCopyCommand (today : String) (m : Store) (cwd src dst : String) :
    Bool × Store :=
  let sourcePath := normalizePath cwd src
  let destPath := normalizePath cwd dst
  match mapFind m sourcePath with
  | none => (false, m)
  | some se =>
    if (mapFind m destPath).isSome then (false, m)
    else
      let destEntry := { se with creationDate := today, modificationDate := today }
      if se.type == EntryType.DIRECTORY then
        match addNewEntryInternal today m cwd destPath true with
        | (false, m1) => (false, m1)
        | (true, m1) =>
          let srcPre := if sourcePath == "/" then "/" else sourcePath ++ "/"
          let dstPre := if destPath == "/" then "/" else destPath ++ "/"
          let toCopy :=
            (m1.filter (isDescendantOf sourcePath)).map
              (fun kv => (dstPre ++ ⟨kv.1.data.drop srcPre.length⟩,
                { kv.2 with creationDate := today, modificationDate := today }))
          (true, toCopy.foldl (fun acc kv => mapAssign acc kv.1 kv.2) m1)
      else (true, mapAssign m destPath destEntry)

/-- The decimal digit characters written by `operator<<` on a `size_t`. -/
def digitChar : Nat → Char
  | 0 => '0' | 1 => '1' | 2 => '2' | 3 => '3' | 4 => '4'
  | 5 => '5' | 6 => '6' | 7 => '7' | 8 => '8' | 9 => '9'
  | _ => '*'

/-- Decimal printing of a `Nat`, fuelled (`n / 10 < n` justifies
`n + 1` fuel, supplied by `natToDec`). -/
def toDecFuel : Nat → Nat → List Char
  | 0, _ => []
  | fuel + 1, n =>
    if n < 10 then [digitChar n]
    else toDecFuel fuel (n / 10) ++ [digitChar (n % 10)]

/-- `outFile << entry.second.sizeInBytes`: the decimal representation. -/
def natToDec (n : Nat) : List Char :=
  toDecFuel (n + 1) n

/-- The numeric value of a decimal digit character, `none` for
anything else. -/
def digitVal? (c : Char) : Option Nat :=
  if '0' ≤ c ∧ c ≤ '9' then some (c.toNat - '0'.toNat) else none

/-- Whether a character is a decimal digit. -/
def isDigitC (c : Char) : Bool :=
  (digitVal? c).isSome

/-- Value of a digit string, most significant first. -/
def digitsToNat (l : List Char) : Nat :=
  l.foldl (fun a c => 10 * a + (digitVal? c).getD 0) 0

/-- `std::stoull` as used on the `<size>` field of a dump line: parse the
leading run of decimal digits; no digits (`std::invalid_argument`) or a
value not representable in the 64-bit `unsigned long long`
(`std::out_of_range`) throw, which aborts the program — modelled as
`none`.  (The leading-whitespace/sign forms `stoull` also accepts never
occur in a dump written by `save` and are not modelled.) -/
def myStoull (s : List Char) : Option Nat :=
  let ds := s.takeWhile isDigitC
  if ds.isEmpty then none
  else if digitsToNat ds < 2 ^ 64 then some (digitsToNat ds) else none

/-- The `<TYPE>` field written by `parseSaveCommand`. -/
def typeStr (e : FSEntry) : String :=
  if e.type == EntryType.FILE then "FILE" else "DIR"

/-- One record line of the dump (memFS.cpp lines 1001-1016):
`<type>|<path>|<size>|<created>|<modified>|<data>`, the data present only
for files. -/
def saveLine (p : String) (e : FSEntry) : String :=
  typeStr e ++ "|" ++ p ++ "|" ++ (⟨natToDec e.sizeInBytes⟩ : String) ++ "|" ++
    e.creationDate ++ "|" ++ e.modificationDate ++ "|" ++
    (if e.type == EntryType.FILE then e.data else "")

/-- The record lines of the dump, one per store entry, each terminated by
a newline, in the enumeration order of the store. -/
def saveLines : Store → String
  | [] => ""
  | kv :: t => saveLine kv.1 kv.2 ++ "\n" ++ saveLines t

/-- First header line written by `parseSaveCommand`. -/
def header1 (today : String) : String :=
  "# Memory File System Dump - " ++ today

/-- Second header line written by `parseSaveCommand`. -/
def header2 : String :=
  "# Format: <type>|<path>|<size>|<created>|<modified>|<data>"

/-- `parseSaveCommand` (memFS.cpp lines 980-1020): the text written to the
dump file — two `#` header lines followed by one record line per entry. -/
def saveDump (today : String) (m : Store) : String :=
  header1 today ++ "\n" ++ header2 ++ "\n" ++ saveLines m

/-- Rejoin split fields with the delimiter: `x₀ ++ c ++ x₁ ++ c ++ ...`. -/
def joinTail (c : Char) : List (List Char) → List Char
  | [] => []
  | y :: ys => (c :: y) ++ joinTail c ys

/-- Inverse of `splitOnChar` on its output. -/
def intercalateChar (c : Char) : List (List Char) → List Char
  | [] => []
  | x :: xs => x ++ joinTail c xs

/-- One line of the load loop of `parseLoadCommand` (memFS.cpp lines
1049-1082).  Empty lines and lines starting with `#` are skipped.  The
five `std::getline(ss, _, '|')` calls succeed exactly when the line has at
least five `|`s, or exactly four and a nonempty fifth field; otherwise the
line is skipped with a warning.  On success the remainder of the line
after the fifth `|` (possibly containing further `|`s, empty when the
fifth `getline` consumed the rest of the line) becomes the data, the size
goes through `std::stoull` (a throw aborts the load: `none`), and the
entry is stored with `memoryFileSystem[path] = entry`. -/
def parseLine (st : Store) (line : List Char) : Option Store :=
  if line.isEmpty then some st
  else if line.head? == some '#' then some st
  else
    match splitOnChar '|' line with
    | t :: p :: s :: c :: mo :: rest =>
      if rest.isEmpty && mo.isEmpty then some st
      else
        match myStoull s with
        | none => none
        | some n =>
          some (mapAssign st ⟨p⟩
            { data := ⟨intercalateChar '|' rest⟩
              sizeInBytes := n
              creationDate := ⟨c⟩
              modificationDate := ⟨mo⟩
              type := if (⟨t⟩ : String) == "FILE" then EntryType.FILE
                      else EntryType.DIRECTORY })
    | _ => some st

/-- `parseLoadCommand` (memFS.cpp lines 1026-1086): clear the store, read
the dump line by line, parse each line.  (`std::getline` yields no final
empty line for a `\n`-terminated file while `splitOnChar` yields one; the
empty line is skipped by `parseLine`, so the two agree.) -/
def loadDump (dump : String) : Option Store :=
  (splitOnChar '\n' dump.data).foldlM parseLine []

/-- A character does not occur in a string. -/
def charFree (c : Char) (s : String) : Bool :=
  s.data.all (fun x => !(x == c))

/-- Side conditions under which one store entry survives the dump format:
no `|` or newline in the path and the two dates, no newline in the data,
directory entries carry no data (the program never creates one that
does), and the size fits `size_t`. -/
def entrySafe (kv : String × FSEntry) : Bool :=
  charFree '|' kv.1 && charFree '\n' kv.1 &&
  charFree '|' kv.2.creationDate && charFree '\n' kv.2.creationDate &&
  charFree '|' kv.2.modificationDate && charFree '\n' kv.2.modificationDate &&
  charFree '\n' kv.2.data &&
  (kv.2.type == EntryType.FILE || kv.2.data == "") &&
  decide (kv.2.sizeInBytes < 2 ^ 64)

/-- One shell command acting on the store and the current directory
(the operations of sections `create`/`mkdir`/`write`/`cd`/`delete`/
`rmdir`/`mv`/`cp` of the dispatcher). -/
inductive Cmd where
  | mkdir (p : String)
  | createf (p : String)
  | write (p c : String)
  | cd (p : String)
  | remove (p : String) (recursive : Bool)
  | mv (s d : String)
  | cp (s d : String)

/-- Machine state: the store and the global `currentDirectory`. -/
abbrev FsState := Store × String

/-- `initializeFileSystem` (memFS.cpp lines 1148-1162) plus the initial
value of `currentDirectory`. -/
def initState (today : String) : FsState :=
  ([("/", ⟨"", 0, today, today, EntryType.DIRECTORY⟩)], "/")

/-- One dispatcher step: each command is routed to the corresponding core
operation; only `cd` touches `currentDirectory`. -/
def step (today : String) (st : FsState) (c : Cmd) : FsState :=
  match c with
  | .mkdir p => ((addNewEntryInternal today st.1 st.2 p true).2, st.2)
  | .createf p => ((addNewEntryInternal today st.1 st.2 p false).2, st.2)
  | .write p c => ((writeContentToFile today st.1 st.2 p c).2, st.2)
  | .cd p => (st.1, (parseCdCommand st.1 st.2 p).2)
  | .remove p r => ((removeEntryInternal st.1 st.2 p r).2, st.2)
  | .mv s d => ((parseMoveCommand today st.1 st.2 s d).2, st.2)
  | .cp s d => ((parseCopyCommand today st.1 st.2 s d).2, st.2)

/-- A concrete directory entry used by the concrete-state theorems below. -/
def dirE0 : FSEntry :=
  ⟨"", 0, "01/01/2024", "01/01/2024", EntryType.DIRECTORY⟩

/-- A concrete file entry used by the concrete-state theorems below. -/
def fileHi0 : FSEntry :=
  ⟨"hi", 2, "01/01/2024", "01/01/2024", EntryType.FILE⟩

/-! ### Lemmas about path rendering -/

theorem foldl_slash_ne_nil_head (comps : List (List Char)) (acc : List Char)
    (h : acc ≠ []) :
    (comps.foldl (fun a comp => a ++ comp ++ ['/']) acc).head? = acc.head? ∧
      comps.foldl (fun a comp => a ++ comp ++ ['/']) acc ≠ [] := by
  induction comps generalizing acc with
  | nil => exact ⟨rfl, h⟩
  | cons x xs ih =>
    obtain ⟨a, t, rfl⟩ : ∃ a t, acc = a :: t := by
      cases acc with
      | nil => exact absurd rfl h
      | cons a t => exact ⟨a, t, rfl⟩
    obtain ⟨h1, h2⟩ := ih ((a :: t) ++ x ++ ['/']) (by simp)
    refine ⟨?_, by simpa using h2⟩
    rw [List.foldl_cons, h1]
    simp

theorem trimTrailingSlash_head (p : List Char) :
    (trimTrailingSlash p).head? = p.head? := by
  unfold trimTrailingSlash
  split
  · next hcond =>
    obtain ⟨hlen, -⟩ := Bool.and_eq_true_iff.mp hcond
    match p with
    | [] => rfl
    | [a] => simp at hlen
    | a :: b :: t => simp
  · rfl

theorem renderPath_head (comps : List (List Char)) :
    (renderPath comps).head? = some '/' := by
  obtain ⟨h1, h2⟩ := foldl_slash_ne_nil_head comps ['/'] (by simp)
  unfold renderPath
  rw [trimTrailingSlash_head]
  simpa using h1

/-! ### Lemmas about splitting and joining on a delimiter -/

theorem strData_append (s t : String) : (s ++ t).data = s.data ++ t.data := rfl

theorem splitOnChar_ne_nil (c : Char) (l : List Char) : splitOnChar c l ≠ [] := by
  induction l with
  | nil => simp [splitOnChar]
  | cons x xs ih =>
    simp only [splitOnChar]
    split
    · simp
    · cases h : splitOnChar c xs with
      | nil => exact absurd h ih
      | cons r rs => simp [h]

theorem isEmpty_false_of_ne_nil {α : Type} {l : List α} (h : l ≠ []) :
    l.isEmpty = false := by
  cases l with
  | nil => exact absurd rfl h
  | cons a t => rfl

theorem splitOnChar_of_not_mem (c : Char) (l : List Char) (h : c ∉ l) :
    splitOnChar c l = [l] := by
  induction l with
  | nil => rfl
  | cons x xs ih =>
    have hx : (x == c) = false :=
      beq_eq_false_iff_ne.mpr (fun hh => h (by simp [hh]))
    have hxs : c ∉ xs := fun hh => h (List.mem_cons_of_mem _ hh)
    simp [splitOnChar, hx, ih hxs]

theorem splitOnChar_append_cons (c : Char) (a r : List Char) (h : c ∉ a) :
    splitOnChar c (a ++ c :: r) = a :: splitOnChar c r := by
  induction a with
  | nil => simp [splitOnChar]
  | cons x xs ih =>
    have hx : (x == c) = false :=
      beq_eq_false_iff_ne.mpr (fun hh => h (by simp [hh]))
    have hxs : c ∉ xs := fun hh => h (List.mem_cons_of_mem _ hh)
    simp [splitOnChar, hx, ih hxs]

theorem intercalateChar_splitOnChar (c : Char) (l : List Char) :
    intercalateChar c (splitOnChar c l) = l := by
  induction l with
  | nil => rfl
  | cons x xs ih =>
    cases h : splitOnChar c xs with
    | nil => exact absurd h (splitOnChar_ne_nil c xs)
    | cons r rs =>
      rw [h] at ih
      have hjoin : r ++ joinTail c rs = xs := by simpa [intercalateChar] using ih
      by_cases hx : x = c
      · have hb : (x == c) = true := beq_iff_eq.mpr hx
        have h1 : splitOnChar c (x :: xs) = [] :: r :: rs := by simp [splitOnChar, hb, h]
        rw [h1]
        simp only [intercalateChar, joinTail, List.nil_append, List.cons_append]
        rw [hjoin, hx]
      · have hb : (x == c) = false := beq_eq_false_iff_ne.mpr hx
        have h1 : splitOnChar c (x :: xs) = (x :: r) :: rs := by simp [splitOnChar, hb, h]
        rw [h1]
        simp only [intercalateChar, List.cons_append]
        rw [hjoin]

theorem charFree_iff (c : Char) (s : String) : charFree c s = true ↔ c ∉ s.data := by
  unfold charFree
  rw [List.all_eq_true]
  constructor
  · intro h hc
    have := h c hc
    simp at this
  · intro h x hx
    simp only [Bool.not_eq_true']
    exact beq_eq_false_iff_ne.mpr (fun he => h (he ▸ hx))

/-! ### Lemmas about segment processing in `normalizePath` -/

theorem string_data_ext (s t : String) (h : s.data = t.data) : s = t := by
  cases s with
  | mk d =>
    cases t with
    | mk e => exact congrArg String.mk h

theorem strAppend_assoc (a b c : String) : (a ++ b) ++ c = a ++ (b ++ c) :=
  string_data_ext _ _ (by simp [strData_append])

theorem splitOnChar_append_hom (c : Char) (x y : List Char) :
    splitOnChar c (x ++ c :: y) = splitOnChar c x ++ splitOnChar c y := by
  induction x with
  | nil => simp [splitOnChar]
  | cons a x ih =>
    cases hb : (a == c) with
    | true => simp [List.cons_append, splitOnChar, hb, ih]
    | false =>
      cases hx : splitOnChar c x with
      | nil => exact absurd hx (splitOnChar_ne_nil c x)
      | cons r rs => simp [List.cons_append, splitOnChar, hb, ih, hx]

theorem split_slash (b : List Char) :
    splitOnChar '/' ('/' :: b) = [] :: splitOnChar '/' b := by
  simp [splitOnChar]

theorem split_dot (b : List Char) :
    splitOnChar '/' ('.' :: '/' :: b) = ['.'] :: splitOnChar '/' b := by
  simp [splitOnChar]

theorem split_dotdot (b : List Char) :
    splitOnChar '/' ('.' :: '.' :: '/' :: b) = ['.', '.'] :: splitOnChar '/' b := by
  simp [splitOnChar]

theorem processStep_dot (acc : List (List Char)) : processStep acc ['.'] = acc := rfl

theorem processStep_dotdot (acc : List (List Char)) :
    processStep acc ['.', '.'] = acc.dropLast := rfl

theorem processStep_nil (acc : List (List Char)) : processStep acc [] = acc := rfl

theorem processStep_normal (acc : List (List Char)) (x : List Char)
    (h1 : x ≠ []) (h3 : x ≠ ['.']) (h4 : x ≠ ['.', '.']) :
    processStep acc x = acc ++ [x] := by
  simp [processStep, beq_eq_false_iff_ne.mpr h1, beq_eq_false_iff_ne.mpr h3,
    beq_eq_false_iff_ne.mpr h4]

theorem processComponents_append (l₁ l₂ : List (List Char)) :
    processComponents (l₁ ++ l₂) = List.foldl processStep (processComponents l₁) l₂ := by
  simp [processComponents, List.foldl_append]

theorem procSplit_dot (a b : List Char) :
    processComponents (splitOnChar '/' (a ++ '/' :: '.' :: '/' :: b))
      = processComponents (splitOnChar '/' (a ++ '/' :: b)) := by
  rw [splitOnChar_append_hom, splitOnChar_append_hom, split_dot,
    processComponents_append, processComponents_append, List.foldl_cons, processStep_dot]

theorem procSplit_empty (a b : List Char) :
    processComponents (splitOnChar '/' (a ++ '/' :: '/' :: b))
      = processComponents (splitOnChar '/' (a ++ '/' :: b)) := by
  rw [splitOnChar_append_hom, splitOnChar_append_hom, split_slash,
    processComponents_append, processComponents_append, List.foldl_cons, processStep_nil]

theorem procSplit_pop (a x b : List Char) (h1 : x ≠ []) (h2 : '/' ∉ x)
    (h3 : x ≠ ['.']) (h4 : x ≠ ['.', '.']) :
    processComponents (splitOnChar '/' (a ++ '/' :: (x ++ '/' :: '.' :: '.' :: '/' :: b)))
      = processComponents (splitOnChar '/' (a ++ '/' :: b)) := by
  rw [splitOnChar_append_hom, splitOnChar_append_cons _ _ _ h2, split_dotdot,
    splitOnChar_append_hom,
    processComponents_append, processComponents_append, List.foldl_cons, List.foldl_cons,
    processStep_normal _ x h1 h3 h4, processStep_dotdot, List.dropLast_concat]

theorem procSplit_rootpop (b : List Char) :
    processComponents (splitOnChar '/' ('/' :: '.' :: '.' :: '/' :: b))
      = processComponents (splitOnChar '/' ('/' :: b)) := by
  rw [split_slash, split_dotdot, split_slash]
  simp [processComponents, processStep]

/-- Two path arguments with the same absolute-vs-relative status and the
same segment processing after any common prefix normalize identically,
whatever the current directory. -/
theorem normalizePath_congr (cwd P1 P2 : String)
    (hhead : headIsSlash P1 = headIsSlash P2)
    (hcore : ∀ a : List Char,
      processComponents (splitOnChar '/' (a ++ P1.data))
        = processComponents (splitOnChar '/' (a ++ P2.data))) :
    normalizePath cwd P1 = normalizePath cwd P2 := by
  cases hb : headIsSlash P1 with
  | true =>
    have h2 : headIsSlash P2 = true := hhead.symm.trans hb
    simp only [normalizePath, hb, h2, eq_self_iff_true, if_true]
    have h0 := hcore []
    simp only [List.nil_append] at h0
    rw [h0]
  | false =>
    have h2 : headIsSlash P2 = false := hhead.symm.trans hb
    simp only [normalizePath, hb, h2, Bool.false_eq_true, if_false]
    by_cases hc : cwd = "/"
    · have hbne : (cwd != "/") = false := by simp [hc]
      simp only [hbne, Bool.false_eq_true, if_false]
      have h0 := hcore cwd.data
      rw [strData_append cwd P1, strData_append cwd P2, h0]
    · have hbne : (cwd != "/") = true := by simp [bne_iff_ne, hc]
      simp only [hbne, if_true]
      have h0 := hcore (cwd ++ "/").data
      rw [strData_append (cwd ++ "/") P1, strData_append (cwd ++ "/") P2, h0]

/-! ### Lemmas about decimal printing and `stoull` -/

theorem digitVal_digitChar (n : Nat) (h : n < 10) : digitVal? (digitChar n) = some n := by
  interval_cases n <;> rfl

theorem toDecFuel_digits (f n : Nat) : ∀ c ∈ toDecFuel f n, isDigitC c = true := by
  induction f generalizing n with
  | zero => intro c hc; simp [toDecFuel] at hc
  | succ f ih =>
    intro c hc
    simp only [toDecFuel] at hc
    split at hc
    · next h =>
      simp only [List.mem_singleton] at hc
      subst hc
      simp [isDigitC, digitVal_digitChar _ h]
    · next h =>
      rw [List.mem_append] at hc
      cases hc with
      | inl hc => exact ih _ c hc
      | inr hc =>
        simp only [List.mem_singleton] at hc
        subst hc
        simp [isDigitC, digitVal_digitChar _ (Nat.mod_lt _ (by omega))]

theorem digitsToNat_append_digit (l : List Char) (c : Char) :
    digitsToNat (l ++ [c]) = 10 * digitsToNat l + (digitVal? c).getD 0 := by
  simp [digitsToNat, List.foldl_append]

theorem digitsToNat_toDecFuel (f n : Nat) (h : n < f) :
    digitsToNat (toDecFuel f n) = n := by
  induction f generalizing n with
  | zero => omega
  | succ f ih =>
    simp only [toDecFuel]
    split
    · next h10 => simp [digitsToNat, digitVal_digitChar _ h10]
    · next h10 =>
      rw [Nat.not_lt] at h10
      have hdiv : n / 10 < n := Nat.div_lt_self (by omega) (by omega)
      rw [digitsToNat_append_digit, ih (n / 10) (by omega),
        digitVal_digitChar _ (Nat.mod_lt _ (by omega))]
      simp [Nat.div_add_mod]

theorem digitsToNat_natToDec (n : Nat) : digitsToNat (natToDec n) = n :=
  digitsToNat_toDecFuel (n + 1) n (Nat.lt_succ_self n)

theorem natToDec_digits (n : Nat) : ∀ c ∈ natToDec n, isDigitC c = true :=
  toDecFuel_digits (n + 1) n

theorem not_mem_natToDec {c : Char} (hc : isDigitC c = false) (n : Nat) :
    c ∉ natToDec n := by
  intro hm
  have := natToDec_digits n c hm
  rw [hc] at this
  exact Bool.false_ne_true this

theorem natToDec_ne_nil (n : Nat) : natToDec n ≠ [] := by
  unfold natToDec toDecFuel
  split <;> simp

theorem takeWhile_of_all {p : Char → Bool} (l : List Char) (h : ∀ c ∈ l, p c = true) :
    l.takeWhile p = l := by
  induction l with
  | nil => rfl
  | cons x xs ih =>
    rw [List.takeWhile_cons, h x (List.mem_cons_self _ _),
      ih (fun c hc => h c (List.mem_cons_of_mem _ hc))]
    simp

theorem myStoull_natToDec (n : Nat) (h : n < 2 ^ 64) :
    myStoull (natToDec n) = some n := by
  simp only [myStoull, takeWhile_of_all _ (natToDec_digits n),
    isEmpty_false_of_ne_nil (natToDec_ne_nil n), Bool.false_eq_true, if_false,
    digitsToNat_natToDec, h, if_true]

/-! ### Lemmas about the store as an association list -/

theorem mapAssign_of_absent (m : Store) (k : String) (v : FSEntry)
    (h : ∀ kv ∈ m, kv.1 ≠ k) : mapAssign m k v = m ++ [(k, v)] := by
  induction m with
  | nil => rfl
  | cons a t ih =>
    have ha : (a.1 == k) = false :=
      beq_eq_false_iff_ne.mpr (h a (List.mem_cons_self _ _))
    simp [mapAssign, ha, ih (fun kv hkv => h kv (List.mem_cons_of_mem _ hkv))]

theorem foldl_mapAssign_append (m : Store) :
    ∀ acc : Store, (m.map Prod.fst).Nodup →
      (∀ kv ∈ m, ∀ kv' ∈ acc, kv'.1 ≠ kv.1) →
      m.foldl (fun a kv => mapAssign a kv.1 kv.2) acc = acc ++ m := by
  induction m with
  | nil => intro acc _ _; simp
  | cons a t ih =>
    intro acc hnd h
    have hnd' : (t.map Prod.fst).Nodup := (List.nodup_cons.mp (by simpa using hnd)).2
    have hhead : a.1 ∉ t.map Prod.fst := (List.nodup_cons.mp (by simpa using hnd)).1
    simp only [List.foldl_cons]
    rw [mapAssign_of_absent acc a.1 a.2 (fun kv hkv => h a (List.mem_cons_self _ _) kv hkv)]
    rw [ih (acc ++ [a]) hnd' ?_]
    · simp
    · intro kv hkv kv' hkv'
      rcases List.mem_append.mp hkv' with hin | hin
      · exact h kv (List.mem_cons_of_mem _ hkv) kv' hin
      · have : kv' = a := by simpa using hin
        subst this
        intro he
        exact hhead (he ▸ List.mem_map_of_mem Prod.fst hkv)

/-! ### Round-trip lemmas for the dump format -/

theorem parseLine_fields (st : Store) (line : List Char) (t p s c mo : List Char)
    (rest : List (List Char)) (n : Nat)
    (hne : line.isEmpty = false) (hhash : (line.head? == some '#') = false)
    (hsplit : splitOnChar '|' line = t :: p :: s :: c :: mo :: rest)
    (hrest : rest ≠ []) (hn : myStoull s = some n) :
    parseLine st line = some (mapAssign st ⟨p⟩
      ⟨⟨intercalateChar '|' rest⟩, n, ⟨c⟩, ⟨mo⟩,
        if (⟨t⟩ : String) == "FILE" then EntryType.FILE else EntryType.DIRECTORY⟩) := by
  simp only [parseLine, hne, Bool.false_eq_true, if_false, hhash,
    hsplit, isEmpty_false_of_ne_nil hrest, Bool.false_and, hn]

theorem parseLine_hash (st : Store) (l : List Char) :
    parseLine st ('#' :: l) = some st := by
  simp [parseLine]

theorem parseLine_saveLine (st : Store) (p : String) (e : FSEntry)
    (hsafe : entrySafe (p, e) = true) :
    parseLine st (saveLine p e).data = some (mapAssign st p e) := by
  obtain ⟨ed, esz, ecd, emd, ety⟩ := e
  simp only [entrySafe, Bool.and_eq_true, decide_eq_true_eq] at hsafe
  obtain ⟨⟨⟨⟨⟨⟨⟨⟨hp1, hp2⟩, hc1⟩, hc2⟩, hm1⟩, hm2⟩, hd1⟩, hdir⟩, hsz⟩ := hsafe
  have hp1' : '|' ∉ p.data := (charFree_iff _ _).mp hp1
  have hc1' : '|' ∉ ecd.data := (charFree_iff _ _).mp hc1
  have hm1' : '|' ∉ emd.data := (charFree_iff _ _).mp hm1
  have hS : '|' ∉ natToDec esz := not_mem_natToDec (by decide) esz
  have hmkdata : ∀ s : String, (⟨s.data⟩ : String) = s := fun _ => rfl
  cases ety with
  | FILE =>
    have hline : (saveLine p ⟨ed, esz, ecd, emd, EntryType.FILE⟩).data
        = "FILE".data ++ '|' :: (p.data ++ '|' :: (natToDec esz ++ '|' ::
            (ecd.data ++ '|' :: (emd.data ++ '|' :: ed.data)))) := by
      have hbar : ("|" : String).data = ['|'] := rfl
      simp [saveLine, typeStr, strData_append, hbar, List.append_assoc]
    have hsplit : splitOnChar '|' (saveLine p ⟨ed, esz, ecd, emd, EntryType.FILE⟩).data
        = "FILE".data :: p.data :: natToDec esz :: ecd.data :: emd.data ::
            splitOnChar '|' ed.data := by
      rw [hline, splitOnChar_append_cons _ _ _ (by decide),
        splitOnChar_append_cons _ _ _ hp1', splitOnChar_append_cons _ _ _ hS,
        splitOnChar_append_cons _ _ _ hc1', splitOnChar_append_cons _ _ _ hm1']
    have hne : (saveLine p ⟨ed, esz, ecd, emd, EntryType.FILE⟩).data.isEmpty = false := by
      rw [hline]; rfl
    have hhash : ((saveLine p ⟨ed, esz, ecd, emd, EntryType.FILE⟩).data.head?
        == some '#') = false := by
      rw [hline]; rfl
    rw [parseLine_fields st _ _ _ _ _ _ _ _ hne hhash hsplit
      (splitOnChar_ne_nil _ _) (myStoull_natToDec esz hsz)]
    simp [intercalateChar_splitOnChar, hmkdata]
  | DIRECTORY =>
    have hed : ed = "" := by
      have hDF : (EntryType.DIRECTORY == EntryType.FILE) = false := by decide
      rw [Bool.or_eq_true, hDF] at hdir
      rcases hdir with h | h
      · exact absurd h (by simp)
      · exact eq_of_beq h
    subst hed
    have hline : (saveLine p ⟨"", esz, ecd, emd, EntryType.DIRECTORY⟩).data
        = "DIR".data ++ '|' :: (p.data ++ '|' :: (natToDec esz ++ '|' ::
            (ecd.data ++ '|' :: (emd.data ++ '|' :: [])))) := by
      have hbar : ("|" : String).data = ['|'] := rfl
      simp [saveLine, typeStr, strData_append, hbar, List.append_assoc]
    have hsplit : splitOnChar '|' (saveLine p ⟨"", esz, ecd, emd, EntryType.DIRECTORY⟩).data
        = "DIR".data :: p.data :: natToDec esz :: ecd.data :: emd.data ::
            splitOnChar '|' [] := by
      rw [hline, splitOnChar_append_cons _ _ _ (by decide),
        splitOnChar_append_cons _ _ _ hp1', splitOnChar_append_cons _ _ _ hS,
        splitOnChar_append_cons _ _ _ hc1', splitOnChar_append_cons _ _ _ hm1']
    have hne : (saveLine p ⟨"", esz, ecd, emd, EntryType.DIRECTORY⟩).data.isEmpty
        = false := by
      rw [hline]; rfl
    have hhash : ((saveLine p ⟨"", esz, ecd, emd, EntryType.DIRECTORY⟩).data.head?
        == some '#') = false := by
      rw [hline]; rfl
    rw [parseLine_fields st _ _ _ _ _ _ _ _ hne hhash hsplit
      (splitOnChar_ne_nil _ _) (myStoull_natToDec esz hsz)]
    have hDIR : ((⟨"DIR".data⟩ : String) == "FILE") = false := rfl
    simp [hmkdata, hDIR, intercalateChar, joinTail, splitOnChar]

theorem not_mem_append {c : Char} {a b : List Char} (ha : c ∉ a) (hb : c ∉ b) :
    c ∉ a ++ b :=
  fun h => (List.mem_append.mp h).elim ha hb

theorem saveLine_no_newline (p : String) (e : FSEntry) (hsafe : entrySafe (p, e) = true) :
    '\n' ∉ (saveLine p e).data := by
  obtain ⟨ed, esz, ecd, emd, ety⟩ := e
  simp only [entrySafe, Bool.and_eq_true, decide_eq_true_eq] at hsafe
  obtain ⟨⟨⟨⟨⟨⟨⟨⟨hp1, hp2⟩, hc1⟩, hc2⟩, hm1⟩, hm2⟩, hd1⟩, hdir⟩, hsz⟩ := hsafe
  have hp2' := (charFree_iff '\n' p).mp hp2
  have hc2' := (charFree_iff '\n' ecd).mp hc2
  have hm2' := (charFree_iff '\n' emd).mp hm2
  have hd1' := (charFree_iff '\n' ed).mp hd1
  have hS : '\n' ∉ natToDec esz := not_mem_natToDec (by decide) esz
  have hbar : '\n' ∉ ("|" : String).data := by decide
  cases ety with
  | FILE =>
    have htyp : typeStr ⟨ed, esz, ecd, emd, EntryType.FILE⟩ = "FILE" := rfl
    have hif : (if (⟨ed, esz, ecd, emd, EntryType.FILE⟩ : FSEntry).type == EntryType.FILE
        then (⟨ed, esz, ecd, emd, EntryType.FILE⟩ : FSEntry).data else "") = ed := rfl
    simp only [saveLine, htyp, hif, strData_append]
    exact not_mem_append (not_mem_append (not_mem_append (not_mem_append (not_mem_append
      (not_mem_append (not_mem_append (not_mem_append (not_mem_append (not_mem_append
      (by decide) hbar) hp2') hbar) hS) hbar) hc2') hbar) hm2') hbar) hd1'
  | DIRECTORY =>
    have htyp : typeStr ⟨ed, esz, ecd, emd, EntryType.DIRECTORY⟩ = "DIR" := rfl
    have hif : (if (⟨ed, esz, ecd, emd, EntryType.DIRECTORY⟩ : FSEntry).type
        == EntryType.FILE
        then (⟨ed, esz, ecd, emd, EntryType.DIRECTORY⟩ : FSEntry).data else "")
        = "" := rfl
    simp only [saveLine, htyp, hif, strData_append]
    exact not_mem_append (not_mem_append (not_mem_append (not_mem_append (not_mem_append
      (not_mem_append (not_mem_append (not_mem_append (not_mem_append (not_mem_append
      (by decide) hbar) hp2') hbar) hS) hbar) hc2') hbar) hm2') hbar) (by decide)

theorem splitOnChar_saveLines (m : Store) (hsafe : ∀ kv ∈ m, entrySafe kv = true) :
    splitOnChar '\n' (saveLines m).data
      = (m.map (fun kv => (saveLine kv.1 kv.2).data)) ++ [[]] := by
  induction m with
  | nil => rfl
  | cons a t ih =>
    have hfree : '\n' ∉ (saveLine a.1 a.2).data :=
      saveLine_no_newline a.1 a.2 (hsafe a (List.mem_cons_self _ _))
    have hdata : (saveLines (a :: t)).data
        = (saveLine a.1 a.2).data ++ '\n' :: (saveLines t).data := by
      have hnl : ("\n" : String).data = ['\n'] := rfl
      simp [saveLines, strData_append, hnl, List.append_assoc]
    rw [hdata, splitOnChar_append_cons _ _ _ hfree,
      ih (fun kv hkv => hsafe kv (List.mem_cons_of_mem _ hkv))]
    simp

theorem foldlM_parseLine_saveLines (m : Store) :
    ∀ acc : Store, (∀ kv ∈ m, entrySafe kv = true) →
      List.foldlM parseLine acc
        ((m.map (fun kv => (saveLine kv.1 kv.2).data)) ++ [[]])
        = some (m.foldl (fun a kv => mapAssign a kv.1 kv.2) acc) := by
  induction m with
  | nil => intro acc _; rfl
  | cons a t ih =>
    intro acc hsafe
    simp only [List.map_cons, List.cons_append, List.foldlM_cons, List.foldl_cons]
    rw [parseLine_saveLine acc a.1 a.2 (hsafe a (List.mem_cons_self _ _))]
    simp only [Option.bind_eq_bind, Option.some_bind]
    exact ih (mapAssign acc a.1 a.2) (fun kv hkv => hsafe kv (List.mem_cons_of_mem _ hkv))

theorem loadDump_saveDump (today : String) (m : Store)
    (hnd : (m.map Prod.fst).Nodup)
    (hsafe : ∀ kv ∈ m, entrySafe kv = true)
    (htoday : charFree '\n' today = true) :
    loadDump (saveDump today m) = some m := by
  have h1free : '\n' ∉ (header1 today).data := by
    have ht := (charFree_iff '\n' today).mp htoday
    intro hmem
    simp only [header1, strData_append, List.mem_append] at hmem
    rcases hmem with h | h
    · exact absurd h (by decide)
    · exact ht h
  have hdump : (saveDump today m).data
      = (header1 today).data ++ '\n' :: (header2.data ++ '\n' :: (saveLines m).data) := by
    have hnl : ("\n" : String).data = ['\n'] := rfl
    simp [saveDump, strData_append, hnl, List.append_assoc]
  unfold loadDump
  rw [hdump, splitOnChar_append_cons _ _ _ h1free,
    splitOnChar_append_cons _ _ _ (by decide : '\n' ∉ header2.data),
    splitOnChar_saveLines m hsafe]
  have hh1 : parseLine [] (header1 today).data = some [] := by
    have hhead : ((header1 today).data.head? == some '#') = true := rfl
    have hnonempty : (header1 today).data.isEmpty = false := rfl
    simp [parseLine, hnonempty, hhead]
  have hh2 : parseLine [] header2.data = some [] := by decide
  rw [List.foldlM_cons, hh1]
  simp only [Option.bind_eq_bind, Option.some_bind]
  rw [List.foldlM_cons, hh2]
  simp only [Option.bind_eq_bind, Option.some_bind]
  rw [foldlM_parseLine_saveLines m [] hsafe]
  rw [foldl_mapAssign_append m [] hnd (fun kv _ kv' h => absurd h (List.not_mem_nil _))]
  simp

/-! ### Claim theorems -/

/-- Claim C3: `normalizePath` resolves a path that does not start with `/`
against the current directory (concatenation with a single separator
unless the cwd is the root), drops empty and `.` segments (clauses six and
seven, universally: a `/./` or `//` in any position normalizes like a
single `/`), lets a `..` segment pop the last retained segment when one
exists (clause eight, for an arbitrary retained segment `x`) and silently
no-op at the root, never ascending above root and never erroring (clause
nine, and every result is `/`-anchored); in particular the three example
normalizations of the specification hold. -/
theorem c3_normalize_semantics :
    normalizePath "/x" "a/b/../c" = "/x/a/c" ∧
    normalizePath "/a/b" "../../etc" = "/etc" ∧
    normalizePath "/a" "../../../x" = "/x" ∧
    (∀ cwd path : String, (normalizePath cwd path).data.head? = some '/') ∧
    (∀ cwd path : String, headIsSlash path = false →
      normalizePath cwd path
        = normalizePath "/" (if cwd != "/" then cwd ++ "/" ++ path else cwd ++ path)) ∧
    (∀ cwd p q : String,
      normalizePath cwd (p ++ "/./" ++ q) = normalizePath cwd (p ++ "/" ++ q)) ∧
    (∀ cwd p q : String,
      normalizePath cwd (p ++ "//" ++ q) = normalizePath cwd (p ++ "/" ++ q)) ∧
    (∀ cwd p x q : String, x ≠ "" → '/' ∉ x.data → x ≠ "." → x ≠ ".." →
      normalizePath cwd (p ++ "/" ++ x ++ "/../" ++ q)
        = normalizePath cwd (p ++ "/" ++ q)) ∧
    (∀ cwd q : String,
      normalizePath cwd ("/../" ++ q) = normalizePath cwd ("/" ++ q)) := by
  refine ⟨by decide, by decide, by decide, ?_, ?_, ?_, ?_, ?_, ?_⟩
  · intro cwd path
    exact renderPath_head _
  · intro cwd path h
    have hdata : ∀ s : String, ("/" ++ s).data = '/' :: s.data := fun s => rfl
    have hsplit : ∀ l, splitOnChar '/' ('/' :: l) = [] :: splitOnChar '/' l :=
      fun l => by simp [splitOnChar]
    have hproc : ∀ cs, processComponents ([] :: cs) = processComponents cs :=
      fun cs => rfl
    have hswap : (if cwd != "/" then cwd ++ "/" ++ path else cwd ++ path)
        = (if cwd = "/" then cwd ++ path else cwd ++ "/" ++ path) := by
      by_cases hc : cwd = "/" <;> simp [hc]
    rw [hswap]
    by_cases hb : headIsSlash (if cwd = "/" then cwd ++ path else cwd ++ "/" ++ path) = true
    · simp [normalizePath, h, hb]
    · rw [Bool.not_eq_true] at hb
      simp [normalizePath, h, hb, hdata, hsplit, hproc]
  · intro cwd p q
    have hl1 : ("/./" : String).data = ['/', '.', '/'] := rfl
    have hl2 : ("/" : String).data = ['/'] := rfl
    apply normalizePath_congr
    · unfold headIsSlash
      simp only [strData_append]
      cases hp : p.data with
      | nil => rfl
      | cons a l => rfl
    · intro a
      have h1 : a ++ ((p ++ "/./") ++ q).data
          = (a ++ p.data) ++ ('/' :: '.' :: '/' :: q.data) := by
        simp [strData_append, hl1, List.append_assoc, List.cons_append, List.nil_append]
      have h2 : a ++ ((p ++ "/") ++ q).data = (a ++ p.data) ++ ('/' :: q.data) := by
        simp [strData_append, hl2, List.append_assoc, List.cons_append, List.nil_append]
      rw [h1, h2]
      exact procSplit_dot (a ++ p.data) q.data
  · intro cwd p q
    have hl1 : ("//" : String).data = ['/', '/'] := rfl
    have hl2 : ("/" : String).data = ['/'] := rfl
    apply normalizePath_congr
    · unfold headIsSlash
      simp only [strData_append]
      cases hp : p.data with
      | nil => rfl
      | cons a l => rfl
    · intro a
      have h1 : a ++ ((p ++ "//") ++ q).data
          = (a ++ p.data) ++ ('/' :: '/' :: q.data) := by
        simp [strData_append, hl1, List.append_assoc, List.cons_append, List.nil_append]
      have h2 : a ++ ((p ++ "/") ++ q).data = (a ++ p.data) ++ ('/' :: q.data) := by
        simp [strData_append, hl2, List.append_assoc, List.cons_append, List.nil_append]
      rw [h1, h2]
      exact procSplit_empty (a ++ p.data) q.data
  · intro cwd p x q hx1 hx2 hx3 hx4
    have hx1d : x.data ≠ [] := fun h => hx1 (string_data_ext x "" h)
    have hx3d : x.data ≠ ['.'] := fun h => hx3 (string_data_ext x "." h)
    have hx4d : x.data ≠ ['.', '.'] := fun h => hx4 (string_data_ext x ".." h)
    have hl1 : ("/../" : String).data = ['/', '.', '.', '/'] := rfl
    have hl2 : ("/" : String).data = ['/'] := rfl
    apply normalizePath_congr
    · unfold headIsSlash
      simp only [strData_append]
      cases hp : p.data with
      | nil => rfl
      | cons a l => rfl
    · intro a
      have h1 : a ++ ((((p ++ "/") ++ x) ++ "/../") ++ q).data
          = (a ++ p.data) ++ ('/' :: (x.data ++ '/' :: '.' :: '.' :: '/' :: q.data)) := by
        simp [strData_append, hl1, hl2, List.append_assoc, List.cons_append,
          List.nil_append]
      have h2 : a ++ ((p ++ "/") ++ q).data = (a ++ p.data) ++ ('/' :: q.data) := by
        simp [strData_append, hl2, List.append_assoc, List.cons_append, List.nil_append]
      rw [h1, h2]
      exact procSplit_pop (a ++ p.data) x.data q.data hx1d hx2 hx3d hx4d
  · intro cwd q
    show (⟨renderPath (processComponents (splitOnChar '/'
        ('/' :: '.' :: '.' :: '/' :: q.data)))⟩ : String)
      = ⟨renderPath (processComponents (splitOnChar '/' ('/' :: q.data)))⟩
    rw [procSplit_rootpop]

/-- Claim C3 witness: the relative-resolution clause applied at the
concrete input `cwd = "/q"`, `path = "etc"`, and the pop clause applied at
the concrete segment `x = "b"` in `a/b/../c` under `cwd = "/x"`. -/
theorem c3_normalize_semantics_witness :
    (headIsSlash "etc" = false ∧
      normalizePath "/q" "etc"
        = normalizePath "/" (if "/q" != "/" then "/q" ++ "/" ++ "etc" else "/q" ++ "etc")) ∧
    (("b" : String) ≠ "" ∧ '/' ∉ ("b" : String).data ∧
      ("b" : String) ≠ "." ∧ ("b" : String) ≠ ".." ∧
      normalizePath "/x" ("a" ++ "/" ++ "b" ++ "/../" ++ "c")
        = normalizePath "/x" ("a" ++ "/" ++ "c")) :=
  ⟨⟨by decide, c3_normalize_semantics.2.2.2.2.1 "/q" "etc" (by decide)⟩,
   ⟨by decide, by decide, by decide, by decide,
    c3_normalize_semantics.2.2.2.2.2.2.2.1 "/x" "a" "b" "c"
      (by decide) (by decide) (by decide) (by decide)⟩⟩

/-- Claim C1 is violated by the code: from the initial state, a single
`mkdir /a` plants the key `""` in the store (because
`getDirectoryFromPath "/a" = ""` and `ensureParentDirectoriesExist`
creates that "parent"), and `""` is not a canonical absolute path — it
does not even start with `/`. -/
theorem c1_canonical_key_violation :
    mapFind (step "01/01/2024" (initState "01/01/2024") (Cmd.mkdir "/a")).1 ""
      = some dirE0 ∧
    startsWithStr "" "/" = false := by decide

/-- Claim C2 is violated by the code: moving the directory `/s` (one
descendant, store of 3 entries) to `/d` leaves a store of 4 entries, not
3 — `addNewEntryInternal` first creates the spurious parent `""` because
`getDirectoryFromPath "/d" = ""`.  The move itself succeeds. -/
theorem c2_move_count_violation :
    (parseMoveCommand "02/01/2024" [("/", dirE0), ("/s", dirE0), ("/s/f", fileHi0)]
        "/" "/s" "/d").1 = true ∧
    (parseMoveCommand "02/01/2024" [("/", dirE0), ("/s", dirE0), ("/s/f", fileHi0)]
        "/" "/s" "/d").2.length = 4 ∧
    ([("/", dirE0), ("/s", dirE0), ("/s/f", fileHi0)] : Store).length = 3 ∧
    mapFind (parseMoveCommand "02/01/2024" [("/", dirE0), ("/s", dirE0), ("/s/f", fileHi0)]
        "/" "/s" "/d").2 ""
      = some ⟨"", 0, "02/01/2024", "02/01/2024", EntryType.DIRECTORY⟩ := by decide

/-- Claim C4 is violated by the code: writing to a path that exists as a
Directory is not rejected — `fileExists` is false for it, so the write
falls into the create branch and `memoryFileSystem[path] = newFile`
silently replaces the directory entry with a file, reporting success. -/
theorem c4_write_overwrites_directory :
    (writeContentToFile "02/01/2024" [("/", dirE0), ("", dirE0), ("/d", dirE0)]
        "/" "/d" "x").1 = true ∧
    mapFind (writeContentToFile "02/01/2024" [("/", dirE0), ("", dirE0), ("/d", dirE0)]
        "/" "/d" "x").2 "/d"
      = some ⟨"x", 1, "02/01/2024", "02/01/2024", EntryType.FILE⟩ := by decide

/-- Claim C6: removing a directory that has at least one descendant with
`recursive = false` fails and returns the store unchanged. -/
theorem c6_nonrecursive_remove_unchanged (m : Store) (cwd path : String) (e : FSEntry)
    (h1 : mapFind m (normalizePath cwd path) = some e)
    (h2 : e.type = EntryType.DIRECTORY)
    (h3 : m.any (isDescendantOf (normalizePath cwd path)) = true) :
    removeEntryInternal m cwd path false = (false, m) := by
  simp only [removeEntryInternal, h1, h2, h3, Bool.not_false, Bool.and_true, beq_self_eq_true,
    if_true]

/-- Claim C6 witness: the theorem applied at a concrete store containing
the non-empty directory `/a`. -/
theorem c6_nonrecursive_remove_unchanged_witness :
    removeEntryInternal [("/", dirE0), ("/a", dirE0), ("/a/b", fileHi0)] "/" "/a" false
      = (false, [("/", dirE0), ("/a", dirE0), ("/a/b", fileHi0)]) :=
  c6_nonrecursive_remove_unchanged _ "/" "/a" dirE0 (by decide) (by decide) (by decide)

/-- Claim C7 is violated by the code: `getDirectoryFromPath` returns the
empty string, not `"/"`, on a top-level path such as `/a` (the `"/"`
fallback only fires when the path contains no `/` at all). -/
theorem c7_dirname_top_level :
    getDirectoryFromPath "/a" = "" ∧ getDirectoryFromPath "a" = "/" := by decide

/-- Claim C8 is violated by the code: after `mkdir /d`, `cd /d`,
`rmdir -r /d`, the current directory still names `/d`, which is no longer
present in the store (and is not the root). -/
theorem c8_dangling_cwd_counterexample :
    (step "01/01/2024"
      (step "01/01/2024"
        (step "01/01/2024" (initState "01/01/2024") (Cmd.mkdir "/d"))
        (Cmd.cd "/d"))
      (Cmd.remove "/d" true)).2 = "/d" ∧
    mapFind (step "01/01/2024"
      (step "01/01/2024"
        (step "01/01/2024" (initState "01/01/2024") (Cmd.mkdir "/d"))
        (Cmd.cd "/d"))
      (Cmd.remove "/d" true)).1 "/d" = none ∧
    ("/d" : String) ≠ "/" := by decide

/-- Claim C8 amended: `currentDirectory` is mutated only by the `cd`
command, and any single step leaves it unchanged or sets it to `"/"` or to
a path that exists as a Directory in the (unchanged) store at that moment;
but no operation re-validates it, so deleting the directory it names
leaves it dangling (see the counterexample). -/
theorem c8_cwd_mutation_discipline (today : String) (st : FsState) (c : Cmd) :
    ((∀ a, c ≠ Cmd.cd a) → (step today st c).2 = st.2) ∧
    ((step today st c).2 = st.2 ∨ (step today st c).2 = "/" ∨
      directoryExists st.1 (step today st c).2 = true) := by
  cases c with
  | mkdir p => exact ⟨fun _ => rfl, Or.inl rfl⟩
  | createf p => exact ⟨fun _ => rfl, Or.inl rfl⟩
  | write p c => exact ⟨fun _ => rfl, Or.inl rfl⟩
  | remove p r => exact ⟨fun _ => rfl, Or.inl rfl⟩
  | mv s d => exact ⟨fun _ => rfl, Or.inl rfl⟩
  | cp s d => exact ⟨fun _ => rfl, Or.inl rfl⟩
  | cd p =>
    refine ⟨fun h => absurd rfl (h p), ?_⟩
    simp only [step, parseCdCommand]
    split
    · exact Or.inr (Or.inl rfl)
    · split
      · next hd => exact Or.inr (Or.inr hd)
      · exact Or.inl rfl

/-- Claim C8 amended witness: a non-`cd` step (a `mkdir`) leaves the
current directory unchanged. -/
theorem c8_cwd_mutation_discipline_witness :
    (step "01/01/2024" (initState "01/01/2024") (Cmd.mkdir "/z")).2
      = (initState "01/01/2024").2 :=
  (c8_cwd_mutation_discipline "01/01/2024" (initState "01/01/2024") (Cmd.mkdir "/z")).1
    (fun _ h => Cmd.noConfusion h)

/-- Claim C9 is violated as stated: recursive removal of `/` erases only
the keys that start with `/`, so a store that also holds the key `""`
(which the program itself plants, see `c1_canonical_key_violation`) is
left non-empty. -/
theorem c9_root_remove_counterexample :
    removeEntryInternal [("/", dirE0), ("", dirE0)] "/" "/" true
      = (true, [("", dirE0)]) ∧
    ([("", dirE0)] : Store) ≠ [] := by decide

/-- Claim C9 amended: for every store that contains `/` as a Directory and
whose keys all start with `/`, `remove("/", recursive := true)` succeeds
with no special-casing of the root: every other entry is erased (they all
match the root prefix `/`), then the root entry itself, leaving the store
completely empty. -/
theorem c9_root_remove_amended (m : Store) (cwd : String) (e : FSEntry)
    (h1 : mapFind m "/" = some e)
    (h2 : e.type = EntryType.DIRECTORY)
    (h3 : ∀ kv ∈ m, startsWithStr kv.1 "/" = true) :
    removeEntryInternal m cwd "/" true = (true, []) := by
  have hn : normalizePath cwd "/" = "/" := rfl
  simp only [removeEntryInternal, hn, h1, h2, beq_self_eq_true, if_true, Bool.not_true,
    Bool.and_false, Bool.false_eq_true, if_false, if_true]
  refine Prod.ext rfl ?_
  simp only [mapErase, List.filter_filter]
  rw [List.filter_eq_nil_iff]
  intro kv hkv
  have hs := h3 kv hkv
  by_cases hq : kv.1 = "/" <;> simp [isDescendantOf, hq, hs]

/-- Claim C9 amended witness: the theorem applied at a concrete
two-entry store. -/
theorem c9_root_remove_amended_witness :
    removeEntryInternal [("/", dirE0), ("/a", fileHi0)] "/" "/" true = (true, []) :=
  c9_root_remove_amended _ "/" dirE0 (by decide) (by decide) (by decide)

/-- Claim C10: `cd` to a path that normalizes to `/` succeeds and sets the
current directory to `/` without consulting the store; for any other
target it succeeds exactly when the target exists as a Directory. -/
theorem c10_cd_root_shortcut (m : Store) (cwd arg : String) :
    (normalizePath cwd arg = "/" → parseCdCommand m cwd arg = (true, "/")) ∧
    (normalizePath cwd arg ≠ "/" →
      ((parseCdCommand m cwd arg).1 = true ↔
        directoryExists m (normalizePath cwd arg) = true)) := by
  constructor
  · intro h
    simp [parseCdCommand, h]
  · intro h
    simp only [parseCdCommand, beq_iff_eq, h, if_false]
    cases hd : directoryExists m (normalizePath cwd arg) <;> simp [hd]

/-- Claim C10 witness: `cd /` succeeds on the empty store (no `/` entry
anywhere), and `cd x` from `/` succeeds when `/x` is a Directory. -/
theorem c10_cd_root_shortcut_witness :
    parseCdCommand [] "/" "/" = (true, "/") ∧
    (parseCdCommand [("/", dirE0), ("/x", dirE0)] "/" "x").1 = true :=
  ⟨(c10_cd_root_shortcut [] "/" "/").1 (by decide),
   ((c10_cd_root_shortcut [("/", dirE0), ("/x", dirE0)] "/" "x").2 (by decide)).mpr
     (by decide)⟩

/-- Claim C5 is violated as stated ("for any populated store"): a store
whose single key is the path `/a|0` (a legal store key — `mkdir "/a|0"`
creates it — and a well-formed Directory entry) does not survive the
round trip, because the dump line `DIR|/a|0|0|…` is re-split at the `|`
inside the path and loads back as a mangled entry at path `/a`. -/
theorem c5_roundtrip_counterexample :
    loadDump (saveDump "02/01/2024" [("/a|0", dirE0)])
      ≠ some [("/a|0", dirE0)] := by decide

/-- Claim C5 amended: the save/load round trip yields an identical mapping
(same paths, kinds, sizes, dates, file contents, independent of the
enumeration order of the store, which the association list makes explicit) for
every store whose keys are unique and whose paths, dates and file data are
representable in the line format: no `|` or newline in paths and dates, no
newline in data, directory entries with empty data, sizes within
`size_t`, and no newline in the header date. -/
theorem c5_roundtrip_amended (today : String) (m : Store)
    (hnd : (m.map Prod.fst).Nodup)
    (hsafe : ∀ kv ∈ m, entrySafe kv = true)
    (htoday : charFree '\n' today = true) :
    loadDump (saveDump today m) = some m :=
  loadDump_saveDump today m hnd hsafe htoday

/-- Claim C5 amended witness: the round trip reproduces a concrete store
with a directory and a file. -/
theorem c5_roundtrip_amended_witness :
    loadDump (saveDump "02/01/2024" [("/", dirE0), ("/f", fileHi0)])
      = some [("/", dirE0), ("/f", fileHi0)] :=
  c5_roundtrip_amended "02/01/2024" [("/", dirE0), ("/f", fileHi0)]
    (by decide) (by decide) (by decide)

end MemFS
